import Mathlib

set_option maxHeartbeats 1000000

/- Formal model of fs/zipfs.py (pyfilesystem2 zip backend: ReadZipFS and
   WriteZipFS).  Paths are modelled as lists of canonical path components;
   the path-string canonicalization utilities are external collaborators
   assumed correct, so a canonical path "/x/y.txt" is the list
   ["x", "y.txt"] and the root is [].  An archive entry name is its
   component list together with the flag recording whether the raw zip name
   ends in the separator (the zip convention marking directory entries). -/

/-- An archive entry name: path components plus whether the raw zip name
ends in a trailing separator. -/
structure ZipName where
  parts : List String
  isDirName : Bool
  deriving DecidableEq

/-- Modelled from the spec: the error taxonomy of the VFS layer (fs.errors
is not among the analysed sources).  `keyError` stands for the stdlib
KeyError escaping from a zipfile table lookup, `osError` for an
environmental I/O failure during archive serialization. -/
inductive ZErr where
  | filesystemClosed
  | resourceReadOnly (path : List String)
  | resourceNotFound (path : List String)
  | fileExpected (path : List String)
  | directoryExpected (path : List String)
  | keyError
  | osError
  deriving DecidableEq

deriving instance DecidableEq for Except

/-- Lookup of a path in the flat node list of the directory index. -/
def nodesFind : List (List String × Bool) → List String → Option Bool
  | [], _ => none
  | (q, d) :: rest, p => if q = p then some d else nodesFind rest p

/-- Modelled from the spec: the in-memory filesystem (fs.memoryfs is not
among the analysed sources) used as the Directory Index: a tree where each
node is `{is_directory : bool}`, here a flat map from each node's path to
its flag.  The root always exists and is a directory. -/
structure MemFS where
  nodes : List (List String × Bool)
  deriving DecidableEq

def MemFS.lookup (fs : MemFS) (p : List String) : Option Bool :=
  if p = [] then some true else nodesFind fs.nodes p

/-- Modelled from the spec: idempotent node creation — creating a node that
already exists (including the root) leaves the tree unchanged. -/
def MemFS.insertNode (fs : MemFS) (p : List String) (d : Bool) : MemFS :=
  if p = [] then fs
  else if (nodesFind fs.nodes p).isSome then fs
  else ⟨(p, d) :: fs.nodes⟩

/-- The nonempty prefixes of a component list, shortest first. -/
def prefixesOf (p : List String) : List (List String) :=
  (List.range p.length).map (fun i => p.take (i + 1))

/-- Modelled from the spec: `makedirs(path, recreate=True)` — create the
directory and every ancestor, idempotently. -/
def MemFS.makedirs (fs : MemFS) (p : List String) : MemFS :=
  (prefixesOf p).foldl (fun acc q => acc.insertNode q true) fs

def MemFS.isdir (fs : MemFS) (p : List String) : Bool :=
  match fs.lookup p with
  | some d => d
  | none => false

def MemFS.isfile (fs : MemFS) (p : List String) : Bool :=
  match fs.lookup p with
  | some d => !d
  | none => false

def MemFS.existsPath (fs : MemFS) (p : List String) : Bool :=
  (fs.lookup p).isSome

/-- The children names of a directory node: the basename of every node
whose parent is `p` (iteration order of the node list). -/
def MemFS.children (fs : MemFS) (p : List String) : List String :=
  fs.nodes.filterMap (fun n =>
    if n.1 ≠ [] ∧ n.1.dropLast = p then n.1.getLast? else none)

/-- ReadZipFS._directory, one entry step (zipfs.py lines 238-244): a name
ending in the separator is created as a directory with all its ancestors;
otherwise all ancestors of the name are created as directories and the name
itself is created as a file. -/
def MemFS.addEntry (fs : MemFS) (e : ZipName) : MemFS :=
  if e.isDirName then fs.makedirs e.parts
  else (fs.makedirs e.parts.dropLast).insertNode e.parts false

/-- ReadZipFS._directory (zipfs.py lines 230-245): build the Directory
Index from the archive's flat name list, in namelist order. -/
def buildIndex (names : List ZipName) : MemFS :=
  names.foldl MemFS.addEntry ⟨[]⟩

/-- The fields of a zipfile.ZipInfo record that ReadZipFS reads. -/
structure ZipInfoRec where
  file_size : Nat
  date_time : Nat × Nat × Nat × Nat × Nat × Nat
  external_attr : Nat
  create_system : Nat
  deriving DecidableEq

/-- One archive entry: its name, its table record and its decompressed
payload bytes. -/
structure ZipEntry where
  name : ZipName
  info : ZipInfoRec
  data : List Nat
  deriving DecidableEq

/-- zipfile.ZipFile.getinfo: the name-to-record table maps each name to the
last entry bearing it (dict construction overwrites earlier duplicates). -/
def zipGetInfo (entries : List ZipEntry) (n : ZipName) : Option ZipEntry :=
  entries.reverse.find? (fun en => decide (en.name = n))

structure BasicInfo where
  name : String
  is_dir : Bool
  deriving DecidableEq

/-- The `details` namespace: the root reports only its type, other entries
also report size and modified time (zipfs.py lines 253-281). -/
structure DetailsInfo where
  size : Option Nat
  resourceType : Nat
  modified : Option Int
  deriving DecidableEq

/-- Modelled from the spec: fs.permissions.Permissions, reduced to the mode
bits it is constructed from. -/
structure AccessInfo where
  permissions : Nat
  deriving DecidableEq

/-- The namespaced metadata record (fs.info.Info): only requested
namespaces are populated; `basic` is always present. -/
structure Info where
  basic : BasicInfo
  details : Option DetailsInfo
  zip : Option ZipInfoRec
  access : Option AccessInfo
  deriving DecidableEq

/-- Days from 1970-01-01 of a civil date (the standard days-from-civil
computation realizing calendar.timegm's calendar arithmetic). -/
def daysFromCivil (y m d : Int) : Int :=
  let y2 : Int := if m ≤ 2 then y - 1 else y
  let era : Int := (if 0 ≤ y2 then y2 else y2 - 399) / 400
  let yoe : Int := y2 - era * 400
  let mp : Int := (m + 9) % 12
  let doy : Int := (153 * mp + 2) / 5 + d - 1
  let doe : Int := yoe * 365 + yoe / 4 - yoe / 100 + doy
  era * 146097 + doe - 719468

/-- fs/time.py datetime_to_epoch: timegm of the record's 6-field date/time
tuple. -/
def datetime_to_epoch (t : Nat × Nat × Nat × Nat × Nat × Nat) : Int :=
  daysFromCivil (Int.ofNat t.1) (Int.ofNat t.2.1) (Int.ofNat t.2.2.1) * 86400
    + Int.ofNat t.2.2.2.1 * 3600 + Int.ofNat t.2.2.2.2.1 * 60
    + Int.ofNat t.2.2.2.2.2

/-- Modelled from the spec: fs.enums.ResourceType code for a directory. -/
def resourceTypeDirectory : Nat := 1

/-- Modelled from the spec: fs.enums.ResourceType code for a file. -/
def resourceTypeFile : Nat := 2

/-- The state of a ReadZipFS instance: the closed flags of the backend and
of the underlying zipfile handle, the archive's flat entry table (in
namelist order) and the lazily cached Directory Index. -/
structure ReadState where
  closed : Bool
  zipClosed : Bool
  zip : List ZipEntry
  index : Option MemFS
  deriving DecidableEq

/-- ReadZipFS._directory: the cached index if built, otherwise the index
built from the archive's name list. -/
def ReadState.dirFS (s : ReadState) : MemFS :=
  s.index.getD (buildIndex (s.zip.map ZipEntry.name))

/-- The state after the lazy Directory Index has been built and cached. -/
def ReadState.withIndex (s : ReadState) : ReadState :=
  { s with index := some s.dirFS }

/-- The cache invariant every reachable ReadZipFS state satisfies: the
cached index, when present, is the one built from the archive. -/
def ReadState.validIndex (s : ReadState) : Prop :=
  s.index = none ∨ s.index = some (buildIndex (s.zip.map ZipEntry.name))

/-- ReadZipFS._path_to_zip_name (zipfs.py lines 222-228): the zip name of a
canonical path, with the trailing separator iff the index says it is a
directory. -/
def pathToZipName (fs : MemFS) (p : List String) : ZipName :=
  ⟨p, fs.isdir p⟩

/-- ReadZipFS.setinfo (zipfs.py lines 299-302). -/
def ReadState.setinfo (s : ReadState) (path : List String) (_info : Info) :
    Except ZErr Unit × ReadState :=
  if s.closed then (.error .filesystemClosed, s)
  else (.error (.resourceReadOnly path), s)

/-- ReadZipFS.makedir (zipfs.py lines 309-317). -/
def ReadState.makedir (s : ReadState) (path : List String)
    (_permissions : Option AccessInfo) (_recreate : Bool) :
    Except ZErr Unit × ReadState :=
  if s.closed then (.error .filesystemClosed, s)
  else (.error (.resourceReadOnly path), s)

/-- ReadZipFS.remove (zipfs.py lines 333-336). -/
def ReadState.remove (s : ReadState) (path : List String) :
    Except ZErr Unit × ReadState :=
  if s.closed then (.error .filesystemClosed, s)
  else (.error (.resourceReadOnly path), s)

/-- ReadZipFS.removedir (zipfs.py lines 338-341). -/
def ReadState.removedir (s : ReadState) (path : List String) :
    Except ZErr Unit × ReadState :=
  if s.closed then (.error .filesystemClosed, s)
  else (.error (.resourceReadOnly path), s)

/-- A byte stream over one entry's decompressed contents, with its own
read cursor. -/
structure ByteStream where
  data : List Nat
  pos : Nat
  deriving DecidableEq

/-- ReadZipFS.openbin (zipfs.py lines 319-331). -/
def ReadState.openbin (s : ReadState) (path : List String) (mode : List Char)
    (_buffering : Int) : Except ZErr ByteStream × ReadState :=
  if s.closed then (.error .filesystemClosed, s)
  else if 'w' ∈ mode ∨ '+' ∈ mode ∨ 'a' ∈ mode then
    (.error (.resourceReadOnly path), s)
  else if s.dirFS.existsPath path = false then
    (.error (.resourceNotFound path), s.withIndex)
  else if s.dirFS.isdir path then (.error (.fileExpected path), s.withIndex)
  else
    match zipGetInfo s.zip (pathToZipName s.dirFS path) with
    | some en => (.ok ⟨en.data, 0⟩, s.withIndex)
    | none => (.error .keyError, s.withIndex)

/-- Modelled from the spec: MemoryFS.listdir over the Directory Index —
ResourceNotFound for an absent path, DirectoryExpected for a file. -/
def MemFS.listdirE (fs : MemFS) (p : List String) :
    Except ZErr (List String) :=
  if fs.existsPath p = false then .error (.resourceNotFound p)
  else if fs.isdir p = false then .error (.directoryExpected p)
  else .ok (fs.children p)

/-- ReadZipFS.listdir (zipfs.py lines 304-307). -/
def ReadState.listdir (s : ReadState) (path : List String) :
    Except ZErr (List String) × ReadState :=
  if s.closed then (.error .filesystemClosed, s)
  else (s.dirFS.listdirE path, s.withIndex)

/-- ReadZipFS.getinfo (zipfs.py lines 247-297). -/
def ReadState.getinfo (s : ReadState) (path : List String)
    (ns : List String) : Except ZErr Info × ReadState :=
  if s.closed then (.error .filesystemClosed, s)
  else if path = [] then
    (.ok ⟨⟨"", true⟩,
      if "details" ∈ ns then some ⟨none, resourceTypeDirectory, none⟩
      else none, none, none⟩, s)
  else
    match s.dirFS.lookup path with
    | none => (.error (.resourceNotFound path), s.withIndex)
    | some isDir =>
      if "details" ∈ ns ∨ "access" ∈ ns ∨ "zip" ∈ ns then
        match zipGetInfo s.zip (pathToZipName s.dirFS path) with
        | none =>
          (.ok ⟨⟨(path.getLast?).getD "", isDir⟩, none, none, none⟩,
            s.withIndex)
        | some en =>
          (.ok ⟨⟨(path.getLast?).getD "", isDir⟩,
            if "details" ∈ ns then
              some ⟨some en.info.file_size,
                if isDir then resourceTypeDirectory else resourceTypeFile,
                some (datetime_to_epoch en.info.date_time)⟩
            else none,
            if "zip" ∈ ns then some en.info else none,
            if "access" ∈ ns then
              if en.info.external_attr ≠ 0 ∧ en.info.create_system = 3 then
                some ⟨(en.info.external_attr >>> 16) &&& 0xFFF⟩
              else none
            else none⟩, s.withIndex)
      else
        (.ok ⟨⟨(path.getLast?).getD "", isDir⟩, none, none, none⟩,
          s.withIndex)

/-- ReadZipFS.readbytes (zipfs.py lines 349-356): only `isfile` is tested,
so a missing path and an existing directory both report ResourceNotFound. -/
def ReadState.readbytes (s : ReadState) (path : List String) :
    Except ZErr (List Nat) × ReadState :=
  if s.closed then (.error .filesystemClosed, s)
  else if s.dirFS.isfile path = false then
    (.error (.resourceNotFound path), s.withIndex)
  else
    match zipGetInfo s.zip (pathToZipName s.dirFS path) with
    | some en => (.ok en.data, s.withIndex)
    | none => (.error .keyError, s.withIndex)

/-- ReadZipFS.close (zipfs.py lines 343-347): mark closed, release the zip
handle; both steps are idempotent. -/
def ReadState.close (s : ReadState) : ReadState :=
  { s with closed := true, zipClosed := true }

/-- The scratch (temp) backend owned by a WriteZipFS: its closed flag and
its staged tree.  File payloads are not queried by any verified claim; the
tree records the staged hierarchy. -/
structure ScratchState where
  closed : Bool
  tree : MemFS
  deriving DecidableEq

/-- Modelled from the spec: the fs.compress.write_zip serialization of the
scratch tree — one archive entry per file, one trailing-separator marker
entry per empty directory. -/
def serializeTree (t : MemFS) : List ZipName :=
  t.nodes.filterMap (fun n =>
    if n.2 then
      if (t.children n.1).isEmpty then some ⟨n.1, true⟩ else none
    else some ⟨n.1, false⟩)

/-- The state of a WriteZipFS instance: its closed flag, its owned scratch
backend and what has been serialized into the target archive. -/
structure WriteState where
  closed : Bool
  temp : ScratchState
  target : Option (List ZipName)
  deriving DecidableEq

/-- Modelled from the spec: the standalone serializer fs.compress.write_zip.
Walking a closed scratch backend fails (on a closed backend every call
fails); `env` models an environmental I/O failure of the serialization
itself. -/
def write_zip_fn (env : Option ZErr) (temp : ScratchState) :
    Except ZErr (List ZipName) :=
  if temp.closed then .error .filesystemClosed
  else
    match env with
    | some e => .error e
    | none => .ok (serializeTree temp.tree)

/-- WriteZipFS.write_zip (zipfs.py lines 161-189): guarded by
`if not self.isclosed()`, so on a closed instance it silently does
nothing. -/
def WriteState.write_zip (s : WriteState) (env : Option ZErr) :
    Except ZErr Unit × WriteState :=
  if s.closed then (.ok (), s)
  else
    match write_zip_fn env s.temp with
    | .error e => (.error e, s)
    | .ok arch => (.ok (), { s with target := some arch })

/-- WriteZipFS.close (zipfs.py lines 152-159): if not closed, try
write_zip, finally close the scratch backend; then mark closed — but a
propagating flush failure skips the final mark-closed (super().close() is
not reached when write_zip raises). -/
def WriteState.close (s : WriteState) (env : Option ZErr) :
    Except ZErr Unit × WriteState :=
  if s.closed then (.ok (), { s with closed := true })
  else
    match s.write_zip env with
    | (.error e, s1) =>
      (.error e, { s1 with temp := { s1.temp with closed := true } })
    | (.ok _, s1) =>
      (.ok (), { s1 with
                 temp := { s1.temp with closed := true },
                 closed := true })

/-- delegate_fs (zipfs.py lines 148-150) followed by FS.close on the
returned scratch backend: the public-API sequence that closes the scratch
backend directly. -/
def WriteState.delegate_close (s : WriteState) : WriteState :=
  { s with temp := { s.temp with closed := true } }

/-- A freshly constructed WriteZipFS: open, empty scratch, nothing yet
written to the target. -/
def freshWrite : WriteState := ⟨false, ⟨false, ⟨[]⟩⟩, none⟩

/-- An archive whose only entry is the file "x/y.txt" (contents "hi"): the
implied-directory scenario of the spec. -/
def sampleEntry : ZipEntry :=
  ⟨⟨["x", "y.txt"], false⟩, ⟨2, (2024, 5, 1, 12, 0, 0), 0, 0⟩, [104, 105]⟩

/-- A freshly opened ReadZipFS over the implied-directory archive. -/
def sampleRead : ReadState := ⟨false, false, [sampleEntry], none⟩

/-- An entry recorded on a POSIX origin system (create_system 3) with mode
0o644 in the high 16 bits of external_attr. -/
def posixEntry : ZipEntry :=
  ⟨⟨["p.txt"], false⟩, ⟨5, (2024, 5, 1, 12, 0, 0), 33188 <<< 16, 3⟩,
    [1, 2, 3, 4, 5]⟩

/-- A freshly opened ReadZipFS over the one-POSIX-file archive. -/
def posixRead : ReadState := ⟨false, false, [posixEntry], none⟩

/-- A lookup that misses can only happen away from the root. -/
theorem lookup_ne_nil {fs : MemFS} {q : List String}
    (h : fs.lookup q = none) : q ≠ [] := by
  intro hq
  rw [hq, MemFS.lookup, if_pos rfl] at h
  cases h

/-- Effect of one idempotent node insertion on every lookup. -/
theorem lookup_insertNode (fs : MemFS) (p : List String) (d : Bool)
    (q : List String) :
    (fs.insertNode p d).lookup q =
      match fs.lookup q with
      | some b => some b
      | none => if q = p then some d else none := by
  by_cases hq : q = []
  · subst hq
    simp [MemFS.lookup]
  · by_cases hp : p = []
    · have he : fs.insertNode p d = fs := by rw [MemFS.insertNode, if_pos hp]
      rw [he]
      cases h : fs.lookup q
      · have hqp : q ≠ p := fun h2 => hq (h2.trans hp)
        simp [hqp]
      · simp
    · by_cases hf : (nodesFind fs.nodes p).isSome
      · have he : fs.insertNode p d = fs := by
          rw [MemFS.insertNode, if_neg hp, if_pos hf]
        rw [he]
        cases h : fs.lookup q
        · have hqp : q ≠ p := by
            intro h2
            subst h2
            rw [MemFS.lookup, if_neg hq] at h
            rw [h] at hf
            cases hf
          simp [hqp]
        · simp
      · have he : fs.insertNode p d = ⟨(p, d) :: fs.nodes⟩ := by
          rw [MemFS.insertNode, if_neg hp, if_neg hf]
        rw [he]
        have hl : MemFS.lookup ⟨(p, d) :: fs.nodes⟩ q =
            if p = q then some d else nodesFind fs.nodes q := by
          rw [MemFS.lookup, if_neg hq]
          simp only [nodesFind]
        rw [hl]
        have h0 : fs.lookup q = nodesFind fs.nodes q := by
          rw [MemFS.lookup, if_neg hq]
        by_cases hpq : p = q
        · subst hpq
          have hn : fs.lookup p = none := by
            rw [MemFS.lookup, if_neg hq]
            cases h2 : nodesFind fs.nodes p
            · rfl
            · rw [h2] at hf
              exact absurd rfl hf
          rw [if_pos rfl, hn]
          simp
        · rw [if_neg hpq, ← h0]
          cases h : fs.lookup q
          · have hqp : q ≠ p := fun h2 => hpq h2.symm
            simp [hqp]
          · simp

/-- Effect of a whole run of directory insertions on every lookup. -/
theorem lookup_insertDirs (ps : List (List String)) (fs : MemFS)
    (q : List String) :
    (ps.foldl (fun acc r => acc.insertNode r true) fs).lookup q =
      match fs.lookup q with
      | some b => some b
      | none => if q ∈ ps then some true else none := by
  induction ps generalizing fs with
  | nil =>
    cases h : fs.lookup q
    · exact h
    · exact h
  | cons r t ih =>
    rw [List.foldl_cons, ih, lookup_insertNode]
    cases h : fs.lookup q
    · by_cases hqr : q = r
      · have hm : q ∈ r :: t := by rw [hqr]; exact List.mem_cons_self r t
        simp [hqr, hm]
      · by_cases hqt : q ∈ t
        · simp [hqr, hqt, List.mem_cons_of_mem r hqt]
        · have hm : ¬ q ∈ r :: t := fun hm =>
            (List.mem_cons.mp hm).elim hqr hqt
          simp [hqr, hqt, hm]
    · rfl

/-- The directory nodes contributed by one archive entry name: every
nonempty prefix of the name itself (trailing-separator entries) or of its
parent (file entries). -/
def dirPaths (e : ZipName) : List (List String) :=
  prefixesOf (if e.isDirName then e.parts else e.parts.dropLast)

/-- The node flag a single archive entry assigns to a path, if any. -/
def assignsEntry (e : ZipName) (q : List String) : Option Bool :=
  if q ∈ dirPaths e then some true
  else if e.isDirName = false ∧ q = e.parts ∧ q ≠ [] then some false
  else none

/-- Effect of adding one archive entry on every lookup. -/
theorem lookup_addEntry (fs : MemFS) (e : ZipName) (q : List String) :
    (fs.addEntry e).lookup q =
      match fs.lookup q with
      | some b => some b
      | none => assignsEntry e q := by
  cases hd : e.isDirName
  · have he : fs.addEntry e =
        (fs.makedirs e.parts.dropLast).insertNode e.parts false := by
      rw [MemFS.addEntry, hd]
      rfl
    rw [he, lookup_insertNode, MemFS.makedirs, lookup_insertDirs]
    cases h : fs.lookup q
    · have hq : q ≠ [] := lookup_ne_nil h
      have hdp : dirPaths e = prefixesOf e.parts.dropLast := by
        rw [dirPaths, hd]
        rfl
      by_cases hmem : q ∈ prefixesOf e.parts.dropLast
      · simp [assignsEntry, hdp, hmem]
      · by_cases hqe : q = e.parts
        · subst hqe
          simp [assignsEntry, hdp, hmem, hq, hd]
        · simp [assignsEntry, hdp, hmem, hqe, hd]
    · rfl
  · have he : fs.addEntry e = fs.makedirs e.parts := by
      rw [MemFS.addEntry, hd]
      rfl
    rw [he, MemFS.makedirs, lookup_insertDirs]
    cases h : fs.lookup q
    · have hdp : dirPaths e = prefixesOf e.parts := by
        rw [dirPaths, hd]
        rfl
      by_cases hmem : q ∈ prefixesOf e.parts
      · simp [assignsEntry, hdp, hmem]
      · simp [assignsEntry, hdp, hmem, hd]
    · rfl

/-- The first node flag assigned to a path by a list of entries (earlier
entries win, matching the first-insertion-wins build). -/
def firstAssign (L : List ZipName) (q : List String) : Option Bool :=
  match L with
  | [] => none
  | e :: t =>
    match assignsEntry e q with
    | some b => some b
    | none => firstAssign t q

/-- Effect of folding a list of entries over a tree on every lookup. -/
theorem lookup_foldl_addEntry (L : List ZipName) (fs : MemFS)
    (q : List String) :
    (L.foldl MemFS.addEntry fs).lookup q =
      match fs.lookup q with
      | some b => some b
      | none => firstAssign L q := by
  induction L generalizing fs with
  | nil =>
    cases h : fs.lookup q
    · simp only [List.foldl_nil, firstAssign]
      exact h
    · exact h
  | cons e t ih =>
    rw [List.foldl_cons, ih, lookup_addEntry]
    cases h : fs.lookup q
    · cases h2 : assignsEntry e q
      · simp [firstAssign, h2]
      · simp [firstAssign, h2]
    · rfl

/-- Away from the root, a built index looks up exactly the first assigned
flag. -/
theorem lookup_buildIndex (L : List ZipName) (q : List String)
    (hq : q ≠ []) :
    (buildIndex L).lookup q = firstAssign L q := by
  rw [buildIndex, lookup_foldl_addEntry]
  have h : MemFS.lookup ⟨[]⟩ q = none := by
    rw [MemFS.lookup, if_neg hq]
    rfl
  rw [h]

/-- Membership in the nonempty-prefix list is being a nonempty prefix. -/
theorem mem_prefixesOf {q p : List String} :
    q ∈ prefixesOf p ↔ q ≠ [] ∧ q <+: p := by
  rw [prefixesOf]
  simp only [List.mem_map, List.mem_range]
  constructor
  · rintro ⟨i, hi, rfl⟩
    constructor
    · intro h
      rcases List.take_eq_nil_iff.mp h with h2 | h2
      · cases h2
      · rw [h2] at hi
        cases hi
    · exact List.take_prefix (i + 1) p
  · rintro ⟨hne, hpre⟩
    have hlen : q.length ≤ p.length := hpre.length_le
    have hpos : 0 < q.length := List.length_pos.mpr hne
    refine ⟨q.length - 1, ?_, ?_⟩
    · omega
    · have : q.length - 1 + 1 = q.length := by omega
      rw [this]
      exact (List.prefix_iff_eq_take.mp hpre).symm

/-- A proper prefix of a list is a prefix of the list without its last
element. -/
theorem prefix_dropLast {p xs : List String} (h : p <+: xs)
    (hne : p ≠ xs) : p <+: xs.dropLast := by
  have hlt : p.length < xs.length :=
    lt_of_le_of_ne h.length_le (fun hl => hne (h.eq_of_length hl))
  rw [List.prefix_iff_eq_take] at h
  rw [List.prefix_iff_eq_take, List.dropLast_eq_take, List.take_take]
  have hmin : min p.length (xs.length - 1) = p.length := by omega
  rw [hmin]
  exact h

/-- Some entry of the list requires `q` as a directory node. -/
def IsDirNode (L : List ZipName) (q : List String) : Prop :=
  ∃ e ∈ L, q ∈ dirPaths e

/-- Some entry of the list requires `q` as a file node. -/
def IsFileName (L : List ZipName) (q : List String) : Prop :=
  ∃ e ∈ L, e.isDirName = false ∧ q = e.parts ∧ q ≠ []

instance (L : List ZipName) (q : List String) : Decidable (IsDirNode L q) :=
  decidable_of_iff (∃ e ∈ L, q ∈ dirPaths e) Iff.rfl

instance (L : List ZipName) (q : List String) : Decidable (IsFileName L q) :=
  decidable_of_iff (∃ e ∈ L, e.isDirName = false ∧ q = e.parts ∧ q ≠ [])
    Iff.rfl

/-- A conflict-free archive name list: no name required as a file is also
required as a directory (by a trailing-separator entry or as a strict
ancestor of another entry). -/
def Consistent (L : List ZipName) : Prop :=
  ∀ e ∈ L, e.isDirName = false → e.parts ≠ [] → ¬ IsDirNode L e.parts

instance (L : List ZipName) : Decidable (Consistent L) :=
  decidable_of_iff
    (∀ e ∈ L, e.isDirName = false → e.parts ≠ [] → ¬ IsDirNode L e.parts)
    Iff.rfl

/-- On conflict-free lists the first assigned flag of a path is determined
by the (order-independent) membership facts alone. -/
theorem firstAssign_eq (L : List ZipName) (q : List String)
    (hc : Consistent L) :
    firstAssign L q =
      if IsDirNode L q then some true
      else if IsFileName L q then some false
      else none := by
  induction L with
  | nil =>
    have h1 : ¬ IsDirNode [] q := by rintro ⟨e, he, -⟩; cases he
    have h2 : ¬ IsFileName [] q := by rintro ⟨e, he, -⟩; cases he
    rw [firstAssign, if_neg h1, if_neg h2]
  | cons e t ih =>
    have hct : Consistent t := by
      intro e2 he2 hf hne hdn
      refine hc e2 (List.mem_cons_of_mem e he2) hf hne ?_
      obtain ⟨e3, he3, hq3⟩ := hdn
      exact ⟨e3, List.mem_cons_of_mem e he3, hq3⟩
    have hstep : firstAssign (e :: t) q =
        match assignsEntry e q with
        | some b => some b
        | none => firstAssign t q := rfl
    rw [hstep]
    by_cases hd : q ∈ dirPaths e
    · have ha : assignsEntry e q = some true := by
        rw [assignsEntry, if_pos hd]
      have hdn : IsDirNode (e :: t) q := ⟨e, List.mem_cons_self e t, hd⟩
      rw [ha, if_pos hdn]
    · by_cases hfl : e.isDirName = false ∧ q = e.parts ∧ q ≠ []
      · have ha : assignsEntry e q = some false := by
          rw [assignsEntry, if_neg hd, if_pos hfl]
        have hfn : IsFileName (e :: t) q :=
          ⟨e, List.mem_cons_self e t, hfl⟩
        have hnd : ¬ IsDirNode (e :: t) q := by
          obtain ⟨hf, hqe, hqn⟩ := hfl
          subst hqe
          exact hc e (List.mem_cons_self e t) hf hqn
        rw [ha, if_neg hnd, if_pos hfn]
      · have ha : assignsEntry e q = none := by
          rw [assignsEntry, if_neg hd, if_neg hfl]
        have hdn : IsDirNode (e :: t) q ↔ IsDirNode t q := by
          constructor
          · rintro ⟨e2, he2, hq2⟩
            rcases List.mem_cons.mp he2 with rfl | he2t
            · exact absurd hq2 hd
            · exact ⟨e2, he2t, hq2⟩
          · rintro ⟨e2, he2, hq2⟩
            exact ⟨e2, List.mem_cons_of_mem e he2, hq2⟩
        have hfn : IsFileName (e :: t) q ↔ IsFileName t q := by
          constructor
          · rintro ⟨e2, he2, hq2⟩
            rcases List.mem_cons.mp he2 with rfl | he2t
            · exact absurd hq2 hfl
            · exact ⟨e2, he2t, hq2⟩
          · rintro ⟨e2, he2, hq2⟩
            exact ⟨e2, List.mem_cons_of_mem e he2, hq2⟩
        rw [ha, ih hct]
        by_cases h1 : IsDirNode t q
        · rw [if_pos h1, if_pos (hdn.mpr h1)]
        · rw [if_neg h1, if_neg (fun h2 => h1 (hdn.mp h2))]
          by_cases h2 : IsFileName t q
          · rw [if_pos h2, if_pos (hfn.mpr h2)]
          · rw [if_neg h2, if_neg (fun h3 => h2 (hfn.mp h3))]

/-- If some entry of the list assigns a flag to `q`, the list's first
assignment exists. -/
theorem firstAssign_isSome_of_mem {L : List ZipName} {q : List String}
    {e : ZipName} {b : Bool} (he : e ∈ L) (h : assignsEntry e q = some b) :
    (firstAssign L q).isSome := by
  induction L with
  | nil => cases he
  | cons e2 t ih =>
    have hstep : firstAssign (e2 :: t) q =
        match assignsEntry e2 q with
        | some b => some b
        | none => firstAssign t q := rfl
    rw [hstep]
    cases h2 : assignsEntry e2 q
    · rcases List.mem_cons.mp he with rfl | ht
      · rw [h] at h2
        cases h2
      · exact ih ht
    · rfl

/-- A path looked up as a file in a built index is literally one of the
archive's file entry names. -/
theorem firstAssign_some_false {L : List ZipName} {q : List String}
    (h : firstAssign L q = some false) : (⟨q, false⟩ : ZipName) ∈ L := by
  induction L with
  | nil => cases h
  | cons e t ih =>
    have hstep : firstAssign (e :: t) q =
        match assignsEntry e q with
        | some b => some b
        | none => firstAssign t q := rfl
    rw [hstep] at h
    cases h2 : assignsEntry e q with
    | none =>
      rw [h2] at h
      exact List.mem_cons_of_mem e (ih h)
    | some b =>
      rw [h2] at h
      cases h
      rw [assignsEntry] at h2
      by_cases hd : q ∈ dirPaths e
      · rw [if_pos hd] at h2
        cases h2
      · rw [if_neg hd] at h2
        by_cases hfl : e.isDirName = false ∧ q = e.parts ∧ q ≠ []
        · obtain ⟨hf, hqe, -⟩ := hfl
          have he : e = ⟨q, false⟩ := by
            cases e
            simp only [ZipName.mk.injEq]
            exact ⟨hqe.symm, hf⟩
          rw [← he]
          exact List.mem_cons_self e t
        · rw [if_neg hfl] at h2
          cases h2

/-- A file node of a built index comes from a file entry of the archive. -/
theorem buildIndex_file_entry {L : List ZipName} {q : List String}
    (h : (buildIndex L).lookup q = some false) :
    (⟨q, false⟩ : ZipName) ∈ L := by
  have hq : q ≠ [] := by
    intro hq
    rw [hq, MemFS.lookup, if_pos rfl] at h
    cases h
  rw [lookup_buildIndex L q hq] at h
  exact firstAssign_some_false h

/-- Inserting a run of directories that all already exist is a no-op. -/
theorem insertDirs_noop (ps : List (List String)) (fs : MemFS)
    (h : ∀ r ∈ ps, (nodesFind fs.nodes r).isSome) :
    ps.foldl (fun acc q => acc.insertNode q true) fs = fs := by
  induction ps with
  | nil => rfl
  | cons r t ih =>
    have he : fs.insertNode r true = fs := by
      rw [MemFS.insertNode]
      by_cases hr : r = []
      · rw [if_pos hr]
      · rw [if_neg hr, if_pos (h r (List.mem_cons_self r t))]
    rw [List.foldl_cons, he, ih (fun r2 hr2 => h r2 (List.mem_cons_of_mem r hr2))]

/-- When the cache invariant holds, the served index is the built one. -/
theorem dirFS_of_validIndex {s : ReadState} (h : s.validIndex) :
    s.dirFS = buildIndex (s.zip.map ZipEntry.name) := by
  rcases h with h | h
  · rw [ReadState.dirFS, h]
    rfl
  · rw [ReadState.dirFS, h]
    rfl

/-- An entry name present in the archive is found by the zipfile table
lookup. -/
theorem zipGetInfo_isSome {zip : List ZipEntry} {nm : ZipName}
    (h : ∃ en ∈ zip, en.name = nm) :
    ∃ en, zipGetInfo zip nm = some en ∧ en.name = nm := by
  rw [zipGetInfo]
  cases hfind : zip.reverse.find? (fun en => decide (en.name = nm)) with
  | none =>
    obtain ⟨en, hen, hnm⟩ := h
    have h2 := List.find?_eq_none.mp hfind en (List.mem_reverse.mpr hen)
    rw [hnm] at h2
    simp at h2
  | some en =>
    have h2 := List.find?_some hfind
    exact ⟨en, rfl, by simpa using h2⟩

/-- Claim C1: on a non-closed ReadZipFS, every mutating operation —
setinfo, makedir, openbin in a mode containing w, + or a, remove,
removedir — fails with ResourceReadOnly carrying the requested path, and
leaves the whole state (archive table and directory index cache)
unchanged. -/
theorem claim_C1_read_backend_readonly (s : ReadState) (p : List String)
    (info : Info) (perms : Option AccessInfo) (recreate : Bool)
    (mode : List Char) (buffering : Int)
    (hopen : s.closed = false)
    (hmode : 'w' ∈ mode ∨ '+' ∈ mode ∨ 'a' ∈ mode) :
    s.setinfo p info = (.error (.resourceReadOnly p), s) ∧
    s.makedir p perms recreate = (.error (.resourceReadOnly p), s) ∧
    s.openbin p mode buffering = (.error (.resourceReadOnly p), s) ∧
    s.remove p = (.error (.resourceReadOnly p), s) ∧
    s.removedir p = (.error (.resourceReadOnly p), s) := by
  have hnc : ¬ (s.closed = true) := by rw [hopen]; exact Bool.false_ne_true
  refine ⟨?_, ?_, ?_, ?_, ?_⟩
  · rw [ReadState.setinfo, if_neg hnc]
  · rw [ReadState.makedir, if_neg hnc]
  · rw [ReadState.openbin, if_neg hnc, if_pos hmode]
  · rw [ReadState.remove, if_neg hnc]
  · rw [ReadState.removedir, if_neg hnc]

/-- Witness for claim C1: the concrete sample state, path "/x" and mode
"wb". -/
theorem claim_C1_witness :
    sampleRead.closed = false ∧
    sampleRead.openbin ["x"] ['w', 'b'] (-1) =
      (.error (.resourceReadOnly ["x"]), sampleRead) ∧
    sampleRead.remove ["x"] = (.error (.resourceReadOnly ["x"]), sampleRead) := by
  have h := claim_C1_read_backend_readonly sampleRead ["x"]
    ⟨⟨"", true⟩, none, none, none⟩ none false ['w', 'b'] (-1) rfl
    (Or.inl (List.mem_cons_self 'w' ['b']))
  exact ⟨rfl, h.2.2.1, h.2.2.2.1⟩

/-- Closing an already-closed WriteZipFS returns ok and leaves the state
unchanged. -/
theorem close_of_closed (t : WriteState) (env2 : Option ZErr)
    (h : t.closed = true) : t.close env2 = (.ok (), t) := by
  rw [WriteState.close, if_pos h]
  cases t
  subst h
  rfl

/-- A close() call that returns without error marks the instance closed. -/
theorem close_ok_closed (s : WriteState) (env : Option ZErr)
    (hok : (s.close env).1 = .ok ()) : (s.close env).2.closed = true := by
  by_cases hc : s.closed = true
  · rw [WriteState.close, if_pos hc]
  · rw [WriteState.close, if_neg hc] at hok ⊢
    rcases hw : s.write_zip env with ⟨r1, s1⟩
    rw [hw] at hok
    cases r1 with
    | error e => cases hok
    | ok u => rfl

/-- Amended claim C2: after a close() call that returns without error,
every later close() on a WriteZipFS returns without error and leaves the
state unchanged (in particular nothing further is serialized); on a
ReadZipFS, close() is unconditionally idempotent. -/
theorem claim_C2_close_idempotent :
    (∀ (s : WriteState) (env env2 : Option ZErr),
      (s.close env).1 = .ok () →
      ((s.close env).2.close env2) = (.ok (), (s.close env).2)) ∧
    (∀ r : ReadState, r.close.close = r.close) := by
  constructor
  · intro s env env2 hok
    exact close_of_closed (s.close env).2 env2 (close_ok_closed s env hok)
  · intro r
    rfl

/-- Witness for the amended claim C2: a fresh WriteZipFS closes
successfully and the second close is an error-free no-op; the sample
ReadZipFS close is idempotent. -/
theorem claim_C2_witness :
    (freshWrite.close none).1 = .ok () ∧
    ((freshWrite.close none).2.close none) = (.ok (), (freshWrite.close none).2) ∧
    sampleRead.close.close = sampleRead.close := by
  exact ⟨rfl, claim_C2_close_idempotent.1 freshWrite none none rfl,
    claim_C2_close_idempotent.2 sampleRead⟩

/-- Counterexample to claim C2 as stated: on a WriteZipFS whose scratch
backend was closed through the public delegate_fs() handle, the first
close()'s flush fails, the instance is never marked closed, and the second
close() raises again — it is not an error-free no-op. -/
theorem claim_C2_counterexample :
    (((freshWrite.delegate_close.close none).2).close none).1 ≠ .ok () := by
  decide

/-- Amended claim C3: write_zip on an already-closed WriteZipFS silently
does nothing — it returns without error and without any effect on the
state. -/
theorem claim_C3_write_zip_closed_noop (s : WriteState) (env : Option ZErr)
    (hclosed : s.closed = true) :
    s.write_zip env = (.ok (), s) := by
  rw [WriteState.write_zip, if_pos hclosed]

/-- Witness for the amended claim C3 at the state reached by closing a
fresh WriteZipFS. -/
theorem claim_C3_witness :
    (freshWrite.close none).2.closed = true ∧
    ((freshWrite.close none).2).write_zip (some .osError) =
      (.ok (), (freshWrite.close none).2) :=
  ⟨rfl, claim_C3_write_zip_closed_noop (freshWrite.close none).2
    (some .osError) rfl⟩

/-- Counterexample to claim C3 as stated: on the closed instance reached
by closing a fresh WriteZipFS, write_zip succeeds silently (no error is
raised at all) instead of failing. -/
theorem claim_C3_counterexample :
    ((freshWrite.close none).2).write_zip none =
      (.ok (), (freshWrite.close none).2) := by
  decide

/-- Claim C4: when serialization fails during the first close() of a
non-closed WriteZipFS, the scratch backend is nevertheless closed in the
resulting state, and exactly the serialization error propagates to the
caller. -/
theorem claim_C4_flush_failure_releases_scratch (s : WriteState)
    (env : Option ZErr) (e : ZErr)
    (hopen : s.closed = false)
    (hfail : write_zip_fn env s.temp = .error e) :
    (s.close env).1 = .error e ∧ (s.close env).2.temp.closed = true := by
  have hnc : ¬ (s.closed = true) := by rw [hopen]; exact Bool.false_ne_true
  rw [WriteState.close, if_neg hnc, WriteState.write_zip, if_neg hnc, hfail]
  exact ⟨rfl, rfl⟩

/-- Witness for claim C4: a fresh WriteZipFS whose serializer hits an
environmental I/O failure. -/
theorem claim_C4_witness :
    freshWrite.closed = false ∧
    write_zip_fn (some .osError) freshWrite.temp = .error .osError ∧
    (freshWrite.close (some .osError)).1 = .error .osError ∧
    (freshWrite.close (some .osError)).2.temp.closed = true := by
  have h := claim_C4_flush_failure_releases_scratch freshWrite
    (some .osError) .osError rfl rfl
  exact ⟨rfl, rfl, h.1, h.2⟩

/-- Claim C10: on a non-closed ReadZipFS, readbytes on a path that exists
and is a directory fails with ResourceNotFound (the code tests only
isfile), not with FileExpected. -/
theorem claim_C10_readbytes_directory (s : ReadState) (p : List String)
    (hopen : s.closed = false)
    (hdir : s.dirFS.lookup p = some true) :
    s.readbytes p = (.error (.resourceNotFound p), s.withIndex) := by
  have hnc : ¬ (s.closed = true) := by rw [hopen]; exact Bool.false_ne_true
  rw [ReadState.readbytes, if_neg hnc]
  have hnf : s.dirFS.isfile p = false := by
    rw [MemFS.isfile, hdir]
    rfl
  simp only [hnf]
  rfl

/-- Witness for claim C10: the implied directory "/x" of the sample
archive. -/
theorem claim_C10_witness :
    sampleRead.dirFS.lookup ["x"] = some true ∧
    sampleRead.readbytes ["x"] =
      (.error (.resourceNotFound ["x"]), sampleRead.withIndex) :=
  ⟨rfl, claim_C10_readbytes_directory sampleRead ["x"] rfl rfl⟩

/-- Claim C5: an implied directory behaves exactly as if stored
explicitly — appending the explicit trailing-separator entry for a
directory implied by a deeper file entry leaves the built index literally
unchanged; concretely, on the archive whose only entry is "x/y.txt",
getinfo("/x") reports a directory and listdir("/x") is ["y.txt"]. -/
theorem claim_C5_implied_directory :
    (∀ (L : List ZipName) (p : List String) (e : ZipName),
      e ∈ L → e.isDirName = false → p ≠ [] → p <+: e.parts →
      p ≠ e.parts → (⟨p, true⟩ : ZipName) ∉ L →
      buildIndex (L ++ [⟨p, true⟩]) = buildIndex L) ∧
    (sampleRead.getinfo ["x"] []).1 =
      .ok ⟨⟨"x", true⟩, none, none, none⟩ ∧
    (sampleRead.listdir ["x"]).1 = .ok ["y.txt"] := by
  refine ⟨?_, by decide, by decide⟩
  intro L p e heL hef hpne hpre hprop hnot
  rw [buildIndex, buildIndex, List.foldl_append, List.foldl_cons,
    List.foldl_nil]
  have hstep : MemFS.addEntry (List.foldl MemFS.addEntry ⟨[]⟩ L) ⟨p, true⟩ =
      (List.foldl MemFS.addEntry ⟨[]⟩ L).makedirs p := rfl
  rw [hstep, MemFS.makedirs]
  apply insertDirs_noop
  intro r hr
  obtain ⟨hrne, hrpre⟩ := mem_prefixesOf.mp hr
  have hassign : assignsEntry e r = some true := by
    have hmemb : r ∈ dirPaths e := by
      rw [dirPaths, hef]
      exact mem_prefixesOf.mpr ⟨hrne, hrpre.trans (prefix_dropLast hpre hprop)⟩
    rw [assignsEntry, if_pos hmemb]
  have hsome := firstAssign_isSome_of_mem heL hassign
  have hlk : (buildIndex L).lookup r = firstAssign L r :=
    lookup_buildIndex L r hrne
  rw [MemFS.lookup, if_neg hrne] at hlk
  rw [buildIndex] at hlk
  rw [hlk]
  exact hsome

/-- Witness for claim C5: the implied directory "x" of the single-entry
archive "x/y.txt". -/
theorem claim_C5_witness :
    buildIndex ([⟨["x", "y.txt"], false⟩] ++ [⟨["x"], true⟩]) =
      buildIndex [⟨["x", "y.txt"], false⟩] :=
  claim_C5_implied_directory.1 [⟨["x", "y.txt"], false⟩] ["x"]
    ⟨["x", "y.txt"], false⟩ (List.mem_cons_self _ _) rfl (by decide)
    ⟨["y.txt"], rfl⟩ (by decide) (by decide)

/-- Amended claim C6: for conflict-free entry lists (no name required both
as a file and as a directory), Directory Index construction is
order-independent — the indexes built from a list and any permutation of
it agree at every path. -/
theorem claim_C6_index_order_independent (L L2 : List ZipName)
    (hc : Consistent L) (hp : List.Perm L L2) (q : List String) :
    (buildIndex L).lookup q = (buildIndex L2).lookup q := by
  by_cases hq : q = []
  · subst hq
    rw [MemFS.lookup, if_pos rfl, MemFS.lookup, if_pos rfl]
  · have hc2 : Consistent L2 := by
      intro e he hf hne hdn
      refine hc e (hp.mem_iff.mpr he) hf hne ?_
      obtain ⟨e2, he2, hq2⟩ := hdn
      exact ⟨e2, hp.mem_iff.mpr he2, hq2⟩
    have hdir : IsDirNode L q ↔ IsDirNode L2 q := by
      constructor
      · rintro ⟨e, he, h2⟩
        exact ⟨e, hp.mem_iff.mp he, h2⟩
      · rintro ⟨e, he, h2⟩
        exact ⟨e, hp.mem_iff.mpr he, h2⟩
    have hfile : IsFileName L q ↔ IsFileName L2 q := by
      constructor
      · rintro ⟨e, he, h2⟩
        exact ⟨e, hp.mem_iff.mp he, h2⟩
      · rintro ⟨e, he, h2⟩
        exact ⟨e, hp.mem_iff.mpr he, h2⟩
    rw [lookup_buildIndex L q hq, lookup_buildIndex L2 q hq,
      firstAssign_eq L q hc, firstAssign_eq L2 q hc2]
    by_cases h1 : IsDirNode L q
    · rw [if_pos h1, if_pos (hdir.mp h1)]
    · rw [if_neg h1, if_neg (fun h2 => h1 (hdir.mpr h2))]
      by_cases h2 : IsFileName L q
      · rw [if_pos h2, if_pos (hfile.mp h2)]
      · rw [if_neg h2, if_neg (fun h3 => h2 (hfile.mpr h3))]

/-- Witness for the amended claim C6: the conflict-free archive
["x/", "x/y.txt"] and its reversal agree at node "x". -/
theorem claim_C6_witness :
    Consistent [(⟨["x"], true⟩ : ZipName), ⟨["x", "y.txt"], false⟩] ∧
    (buildIndex [(⟨["x"], true⟩ : ZipName), ⟨["x", "y.txt"], false⟩]).lookup
        ["x"] =
      (buildIndex [(⟨["x", "y.txt"], false⟩ : ZipName),
        ⟨["x"], true⟩]).lookup ["x"] :=
  ⟨by decide,
    claim_C6_index_order_independent _ _ (by decide)
      (List.Perm.swap (⟨["x", "y.txt"], false⟩ : ZipName)
        (⟨["x"], true⟩ : ZipName) []) ["x"]⟩

/-- Counterexample to claim C6 as stated: the conflicting entry list
["a", "a/b"] and its permutation build different trees — node "a" is a
file one way and a directory the other way. -/
theorem claim_C6_counterexample :
    List.Perm [(⟨["a"], false⟩ : ZipName), ⟨["a", "b"], false⟩]
      [⟨["a", "b"], false⟩, ⟨["a"], false⟩] ∧
    (buildIndex [(⟨["a"], false⟩ : ZipName), ⟨["a", "b"], false⟩]).lookup
        ["a"] ≠
      (buildIndex [(⟨["a", "b"], false⟩ : ZipName),
        ⟨["a"], false⟩]).lookup ["a"] :=
  ⟨List.Perm.swap (⟨["a", "b"], false⟩ : ZipName)
    (⟨["a"], false⟩ : ZipName) [], by decide⟩

/-- Claim C7: getinfo on an existing non-root path whose mapped zip name
has no record in the archive table (an implied directory) succeeds with
only the basic namespace, silently omitting the requested
details/access/zip namespaces instead of failing. -/
theorem claim_C7_implied_dir_getinfo (s : ReadState) (p : List String)
    (ns : List String) (d : Bool)
    (hopen : s.closed = false) (hroot : p ≠ [])
    (hreq : "details" ∈ ns ∨ "access" ∈ ns ∨ "zip" ∈ ns)
    (hmem : s.dirFS.lookup p = some d)
    (hmiss : zipGetInfo s.zip (pathToZipName s.dirFS p) = none) :
    s.getinfo p ns =
      (.ok ⟨⟨(p.getLast?).getD "", d⟩, none, none, none⟩, s.withIndex) := by
  have hnc : ¬ (s.closed = true) := by rw [hopen]; exact Bool.false_ne_true
  rw [ReadState.getinfo, if_neg hnc, if_neg hroot]
  simp only [hmem]
  rw [if_pos hreq]
  simp only [hmiss]

/-- Witness for claim C7: the implied directory "/x" of the sample archive
with all three extra namespaces requested. -/
theorem claim_C7_witness :
    sampleRead.getinfo ["x"] ["details", "access", "zip"] =
      (.ok ⟨⟨"x", true⟩, none, none, none⟩, sampleRead.withIndex) :=
  claim_C7_implied_dir_getinfo sampleRead ["x"]
    ["details", "access", "zip"] true rfl (by decide)
    (Or.inl (by decide)) rfl rfl

/-- Claim C8: on a non-closed ReadZipFS with a valid index cache, openbin
in a pure read mode fails with ResourceNotFound on a missing path, with
FileExpected on a directory, and on a file returns a stream over that
entry's bytes positioned at offset 0 (the entry is guaranteed to exist in
the zip table). -/
theorem claim_C8_openbin_read (s : ReadState) (p : List String)
    (mode : List Char) (buffering : Int)
    (hopen : s.closed = false) (hvalid : s.validIndex)
    (hw : ¬ 'w' ∈ mode) (hplus : ¬ '+' ∈ mode) (ha : ¬ 'a' ∈ mode) :
    (s.dirFS.lookup p = none →
      s.openbin p mode buffering =
        (.error (.resourceNotFound p), s.withIndex)) ∧
    (s.dirFS.lookup p = some true →
      s.openbin p mode buffering =
        (.error (.fileExpected p), s.withIndex)) ∧
    (s.dirFS.lookup p = some false →
      ∃ en : ZipEntry, zipGetInfo s.zip ⟨p, false⟩ = some en ∧
        s.openbin p mode buffering = (.ok ⟨en.data, 0⟩, s.withIndex)) := by
  have hnc : ¬ (s.closed = true) := by rw [hopen]; exact Bool.false_ne_true
  have hnm : ¬ ('w' ∈ mode ∨ '+' ∈ mode ∨ 'a' ∈ mode) := by
    rintro (h | h | h)
    · exact hw h
    · exact hplus h
    · exact ha h
  refine ⟨?_, ?_, ?_⟩
  · intro h
    have h1 : s.dirFS.existsPath p = false := by
      rw [MemFS.existsPath, h]
      rfl
    rw [ReadState.openbin, if_neg hnc, if_neg hnm, if_pos h1]
  · intro h
    have h1 : s.dirFS.existsPath p = true := by
      rw [MemFS.existsPath, h]
      rfl
    have h2 : s.dirFS.isdir p = true := by
      rw [MemFS.isdir, h]
    rw [ReadState.openbin, if_neg hnc, if_neg hnm,
      if_neg (by rw [h1]; simp), if_pos h2]
  · intro h
    have hfs := dirFS_of_validIndex hvalid
    have hment : (⟨p, false⟩ : ZipName) ∈ s.zip.map ZipEntry.name := by
      apply buildIndex_file_entry
      rw [← hfs]
      exact h
    obtain ⟨en0, hen0, hname⟩ := List.mem_map.mp hment
    obtain ⟨en, hfind, hnm2⟩ := zipGetInfo_isSome ⟨en0, hen0, hname⟩
    refine ⟨en, hfind, ?_⟩
    have h1 : s.dirFS.existsPath p = true := by
      rw [MemFS.existsPath, h]
      rfl
    have h2 : s.dirFS.isdir p = false := by
      rw [MemFS.isdir, h]
    have h3 : pathToZipName s.dirFS p = ⟨p, false⟩ := by
      rw [pathToZipName, h2]
    rw [ReadState.openbin, if_neg hnc, if_neg hnm,
      if_neg (by rw [h1]; simp),
      if_neg (by rw [h2]; exact Bool.false_ne_true), h3]
    simp only [hfind]

/-- Witness for claim C8: opening the file "x/y.txt" of the sample archive
for reading yields its two bytes at offset 0. -/
theorem claim_C8_witness :
    ∃ en : ZipEntry,
      zipGetInfo sampleRead.zip ⟨["x", "y.txt"], false⟩ = some en ∧
      sampleRead.openbin ["x", "y.txt"] ['r'] (-1) =
        (.ok ⟨en.data, 0⟩, sampleRead.withIndex) :=
  (claim_C8_openbin_read sampleRead ["x", "y.txt"] ['r'] (-1) rfl
    (Or.inl rfl) (by decide) (by decide) (by decide)).2.2 rfl

/-- Claim C9: for an existing non-root path whose archive record is
present, getinfo with the access namespace requested populates
access.permissions exactly when the record's origin system is POSIX
(create_system = 3) and its raw attribute word is non-zero, and the mode
is then (external_attr >> 16) & 0xFFF; otherwise the access namespace is
omitted. -/
theorem claim_C9_posix_permissions (s : ReadState) (p : List String)
    (ns : List String) (d : Bool) (en : ZipEntry)
    (hopen : s.closed = false) (hroot : p ≠ [])
    (hacc : "access" ∈ ns)
    (hmem : s.dirFS.lookup p = some d)
    (hhit : zipGetInfo s.zip (pathToZipName s.dirFS p) = some en) :
    (s.getinfo p ns).1 =
      .ok ⟨⟨(p.getLast?).getD "", d⟩,
        (if "details" ∈ ns then
          some ⟨some en.info.file_size,
            if d then resourceTypeDirectory else resourceTypeFile,
            some (datetime_to_epoch en.info.date_time)⟩
         else none),
        (if "zip" ∈ ns then some en.info else none),
        (if en.info.external_attr ≠ 0 ∧ en.info.create_system = 3 then
          some ⟨(en.info.external_attr >>> 16) &&& 0xFFF⟩
         else none)⟩ := by
  have hnc : ¬ (s.closed = true) := by rw [hopen]; exact Bool.false_ne_true
  rw [ReadState.getinfo, if_neg hnc, if_neg hroot]
  simp only [hmem]
  rw [if_pos (Or.inr (Or.inl hacc))]
  simp only [hhit]
  rw [if_pos hacc]

/-- Witness for claim C9: the POSIX-origin entry "p.txt" with mode 0o644
in the attribute word yields populated access permissions. -/
theorem claim_C9_witness :
    (posixRead.getinfo ["p.txt"] ["access"]).1 =
      .ok ⟨⟨"p.txt", false⟩,
        (if "details" ∈ (["access"] : List String) then
          some ⟨some posixEntry.info.file_size,
            if false then resourceTypeDirectory else resourceTypeFile,
            some (datetime_to_epoch posixEntry.info.date_time)⟩
         else none),
        (if "zip" ∈ (["access"] : List String) then some posixEntry.info
         else none),
        (if posixEntry.info.external_attr ≠ 0 ∧
            posixEntry.info.create_system = 3 then
          some ⟨(posixEntry.info.external_attr >>> 16) &&& 0xFFF⟩
         else none)⟩ :=
  claim_C9_posix_permissions posixRead ["p.txt"] ["access"] false posixEntry
    rfl (by decide) (by decide) rfl rfl
